import Mathlib

/-!
Verification development for the Strava activity retrieval and weekly
analytics pipeline (src/data/src/strava).  The Python source is shallowly
embedded: dictionaries become association lists preserving insertion order,
Python numbers become rationals, fallible code returns Option or Except,
and the network is an explicit response parameter.
-/

namespace Strava

/-- Python scalar values the pipeline touches: numbers (int/float, modelled
exactly as rationals) and strings.  Other payload values are irrelevant to
the analyzed code paths. -/
inductive Val where
  | num (q : ℚ)
  | str (s : String)
deriving DecidableEq

/-- A Python dict as an insertion-ordered association list with string keys
(Python dicts preserve insertion order; keys are unique in real payloads). -/
abbrev Activity := List (String × Val)

/-- JSON-ish values produced by the summary code: numbers, strings, objects
with string keys, and dicts keyed by arbitrary values (the activity-type
histogram is a Python dict whose keys are the raw type values). -/
inductive J where
  | num (q : ℚ)
  | str (s : String)
  | obj (fields : List (String × J))
  | vmap (entries : List (Val × ℕ))

/-! ## ActivityNormalizer: StravaAnalyzer.clean_activity -/

/-- Fields unconditionally removed by clean_activity (strava_analyzer.py:14). -/
def fields_to_remove : List String := ["athlete", "map", "start_latlng", "end_latlng"]

/-- Conversion factor meters to miles (strava_analyzer.py:9). -/
def METERS_TO_MILES : ℚ := 0.000621371

/-- Conversion factor meters per second to miles per hour (strava_analyzer.py:10). -/
def MPS_TO_MPH : ℚ := 2.23694

/-- Conversion factor meters to feet (strava_analyzer.py:11). -/
def METERS_TO_FEET : ℚ := 3.28084

/-- One conversion step of clean_activity: if the key is present, multiply its
value by the factor in place.  Multiplying a non-numeric value is a Python
TypeError, hence none. -/
def convertField (k : String) (f : ℚ) (l : Activity) : Option Activity :=
  if (l.lookup k).isSome then
    l.mapM (fun kv =>
      if kv.1 = k then
        match kv.2 with
        | Val.num q => some (kv.1, Val.num (q * f))
        | _ => none
      else some kv)
  else some l

/-- Embedding of StravaAnalyzer.clean_activity (strava_analyzer.py:16-34):
drop the four fields_to_remove keys, then convert the six metric fields in
source order when present. -/
def clean_activity (a : Activity) : Option Activity := do
  let c := a.filter (fun kv => !(fields_to_remove.contains kv.1))
  let c ← convertField "distance" METERS_TO_MILES c
  let c ← convertField "elev_high" METERS_TO_FEET c
  let c ← convertField "elev_low" METERS_TO_FEET c
  let c ← convertField "average_speed" MPS_TO_MPH c
  let c ← convertField "max_speed" MPS_TO_MPH c
  let c ← convertField "total_elevation_gain" METERS_TO_FEET c
  return c

/-- Option-valued map, modelling a Python list comprehension in which each
element may raise. -/
def mapOpt (f : α → Option β) : List α → Option (List β)
  | [] => some []
  | x :: xs => do
    let y ← f x
    let ys ← mapOpt f xs
    return y :: ys

/-- Embedding of StravaAnalyzer.clean_activities (strava_analyzer.py:36-38). -/
def clean_activities (acts : List Activity) : Option (List Activity) :=
  mapOpt clean_activity acts

/-- The six unit-converted fields with their factors, in source order. -/
def metric_fields : List (String × ℚ) :=
  [("distance", METERS_TO_MILES), ("elev_high", METERS_TO_FEET),
   ("elev_low", METERS_TO_FEET), ("average_speed", MPS_TO_MPH),
   ("max_speed", MPS_TO_MPH), ("total_elevation_gain", METERS_TO_FEET)]

/-- Multiply a numeric value by a factor, leaving other values alone
(reference transform used to state what clean_activity computes). -/
def mulVal : Val → ℚ → Val
  | Val.num q, f => Val.num (q * f)
  | v, _ => v

/-- Pointwise description of one cleaned entry: metric fields are rescaled,
all other fields pass through unchanged. -/
def cleanEntry (kv : String × Val) : String × Val :=
  match metric_fields.lookup kv.1 with
  | some f => (kv.1, mulVal kv.2 f)
  | none => kv

/-- Reference form of clean_activity: filter the removed keys, rescale the
metric entries pointwise. -/
def cleanSpec (a : Activity) : Activity :=
  (a.filter (fun kv => !(fields_to_remove.contains kv.1))).map cleanEntry

/-! ## Calendar arithmetic (datetime.strptime, weekday, timedelta) -/

/-- Proleptic Gregorian leap year, as in Python datetime. -/
def isLeap (y : ℕ) : Bool :=
  y % 4 = 0 && (y % 100 ≠ 0 || y % 400 = 0)

/-- Days in a month of a given year. -/
def daysInMonth (y m : ℕ) : ℕ :=
  match m with
  | 2 => if isLeap y then 29 else 28
  | 4 => 30
  | 6 => 30
  | 9 => 30
  | 11 => 30
  | _ => 31

/-- Days in the given year that precede month m. -/
def daysBeforeMonth (y m : ℕ) : ℕ :=
  (match m with
   | 1 => 0 | 2 => 31 | 3 => 59 | 4 => 90 | 5 => 120 | 6 => 151
   | 7 => 181 | 8 => 212 | 9 => 243 | 10 => 273 | 11 => 304 | _ => 334)
  + (if 3 ≤ m ∧ isLeap y then 1 else 0)

/-- Number of leap years among years 1..k. -/
def leaps (k : ℕ) : ℕ := k / 4 + k / 400 - k / 100

/-- A calendar date (proleptic Gregorian, as Python datetime.date). -/
structure Date where
  year : ℕ
  month : ℕ
  day : ℕ
deriving DecidableEq

/-- Validity of a date in Python datetime terms (MINYEAR 1, MAXYEAR 9999). -/
def Date.validD (t : Date) : Prop :=
  1 ≤ t.year ∧ t.year ≤ 9999 ∧ 1 ≤ t.month ∧ t.month ≤ 12 ∧
    1 ≤ t.day ∧ t.day ≤ daysInMonth t.year t.month

instance (t : Date) : Decidable t.validD := by
  unfold Date.validD; infer_instance

/-- Day number of a date, counting 0001-01-01 as day 1 (rata die).
Python datetime.date.toordinal computes the same quantity. -/
def toRataDie (t : Date) : ℕ :=
  365 * (t.year - 1) + leaps (t.year - 1) + daysBeforeMonth t.year t.month + t.day

/-- Day of week, Monday = 0 .. Sunday = 6, exactly Python date.weekday()
(0001-01-01 was a Monday). -/
def weekday (t : Date) : ℕ := (toRataDie t - 1) % 7

/-- The calendar day before t. -/
def prevDay (t : Date) : Date :=
  if 1 < t.day then ⟨t.year, t.month, t.day - 1⟩
  else if 1 < t.month then ⟨t.year, t.month - 1, daysInMonth t.year (t.month - 1)⟩
  else ⟨t.year - 1, 12, 31⟩

/-- Subtract k days, modelling datetime - timedelta(days=k). -/
def subDays (t : Date) : ℕ → Date
  | 0 => t
  | k + 1 => subDays (prevDay t) k

/-- Monday of the week containing t:
start_date - timedelta(days=start_date.weekday()) (strava_analyzer.py:115). -/
def weekStart (t : Date) : Date := subDays t (weekday t)

/-- Decimal digit character. -/
def digitChar (n : ℕ) : Char := Char.ofNat (48 + n % 10)

/-- Format a date as the ISO string YYYY-MM-DD, with the year zero-padded to
four digits, modelling strftime with percent-Y dash percent-m dash percent-d
(strava_analyzer.py:116). -/
def fmtDate (t : Date) : String :=
  ⟨[digitChar (t.year / 1000), digitChar (t.year / 100), digitChar (t.year / 10),
    digitChar t.year, Char.ofNat 45, digitChar (t.month / 10), digitChar t.month,
    Char.ofNat 45, digitChar (t.day / 10), digitChar t.day]⟩

/-- The week key of a date: ISO string of the Monday of its week. -/
def week_key (t : Date) : String := fmtDate (weekStart t)

/-! ## Parsing the start_date timestamp (datetime.strptime with the format
year-month-day T hour:minute:second Z) -/

/-- ASCII digit test, as the digit character class of strptime. -/
def isDig (c : Char) : Bool := 48 ≤ c.toNat && c.toNat ≤ 57

/-- Consume up to k further digit characters, accumulating a number. -/
def takeDigits : ℕ → ℕ → List Char → ℕ × List Char
  | 0, acc, cs => (acc, cs)
  | _ + 1, acc, [] => (acc, [])
  | k + 1, acc, c :: cs =>
    if isDig c then takeDigits k (acc * 10 + (c.toNat - 48)) cs else (acc, c :: cs)

/-- Greedily parse between 1 and m digits, as a strptime numeric directive. -/
def parseNum (m : ℕ) : List Char → Option (ℕ × List Char)
  | [] => none
  | c :: cs => if isDig c then some (takeDigits (m - 1) (c.toNat - 48) cs) else none

/-- Require a literal character. -/
def expectChar (c : Char) : List Char → Option (List Char)
  | [] => none
  | x :: xs => if x = c then some xs else none

/-- A parsed timestamp. -/
structure Timestamp where
  date : Date
  hour : ℕ
  minute : ℕ
  second : ℕ

/-- Embedding of datetime.strptime(s, the format used at
strava_analyzer.py:113): greedy numeric directives separated by the literal
dashes, T, colons and trailing Z, with datetime range validation; none models
a ValueError. -/
def parse_start_date (s : String) : Option Timestamp := do
  let (y, r) ← parseNum 4 s.data
  let r ← expectChar (Char.ofNat 45) r
  let (mo, r) ← parseNum 2 r
  let r ← expectChar (Char.ofNat 45) r
  let (d, r) ← parseNum 2 r
  let r ← expectChar (Char.ofNat 84) r
  let (h, r) ← parseNum 2 r
  let r ← expectChar (Char.ofNat 58) r
  let (mi, r) ← parseNum 2 r
  let r ← expectChar (Char.ofNat 58) r
  let (sec, r) ← parseNum 2 r
  let r ← expectChar (Char.ofNat 90) r
  if r = [] ∧ 1 ≤ y ∧ 1 ≤ mo ∧ mo ≤ 12 ∧ 1 ≤ d ∧ d ≤ daysInMonth y mo ∧
      h ≤ 23 ∧ mi ≤ 59 ∧ sec ≤ 59 then
    return ⟨⟨y, mo, d⟩, h, mi, sec⟩
  else none

/-- Read a string-valued field of an activity; none models the KeyError on a
missing key or the TypeError of strptime on a non-string value. -/
def getStr (a : Activity) (k : String) : Option String :=
  match a.lookup k with
  | some (Val.str s) => some s
  | _ => none

/-- The week key computed for one activity inside get_activities_summary
(strava_analyzer.py:113-116): parse activity start_date, take the Monday of
that week, format it. -/
def weekKeyOf (a : Activity) : Option String := do
  let s ← getStr a "start_date"
  let ts ← parse_start_date s
  return week_key ts.date

/-! ## Weekly grouping (defaultdict(list) keyed by week_key) -/

/-- Append an activity to the bucket with the given key, creating the bucket
at the end when absent: defaultdict(list) with append
(strava_analyzer.py:110-117). -/
def addToGroup : List (String × List Activity) → String → Activity → List (String × List Activity)
  | [], k, a => [(k, [a])]
  | g :: gs, k, a =>
    if g.1 = k then (g.1, g.2 ++ [a]) :: gs else g :: addToGroup gs k a

/-- The grouping loop of get_activities_summary over the cleaned activities,
with explicit accumulator. -/
def weekly_groups : List Activity → List (String × List Activity) →
    Option (List (String × List Activity))
  | [], gs => some gs
  | a :: rest, gs => do
    let k ← weekKeyOf a
    weekly_groups rest (addToGroup gs k a)

/-! ## Statistics (_calculate_activity_stats) -/

/-- Sum a numeric field over activities with activity.get(k, 0): a missing
field contributes 0, a present non-numeric value is a Python TypeError. -/
def sumField (k : String) : List Activity → ℚ → Option ℚ
  | [], acc => some acc
  | a :: rest, acc =>
    match a.lookup k with
    | none => sumField k rest (acc + 0)
    | some (Val.num q) => sumField k rest (acc + q)
    | some _ => none

/-- The type value of an activity: activity.get(type, the Unknown string)
(strava_analyzer.py:75). -/
def typeVal (a : Activity) : Val := (a.lookup "type").getD (Val.str "Unknown")

/-- Increment the histogram count of a value, first occurrence appends. -/
def bump : List (Val × ℕ) → Val → List (Val × ℕ)
  | [], v => [(v, 1)]
  | e :: es, v => if e.1 = v then (e.1, e.2 + 1) :: es else e :: bump es v

/-- The activity-type histogram loop (strava_analyzer.py:73-76). -/
def histo : List Activity → List (Val × ℕ) → List (Val × ℕ)
  | [], h => h
  | a :: rest, h => histo rest (bump h (typeVal a))

/-- Embedding of StravaAnalyzer._calculate_activity_stats
(strava_analyzer.py:62-84). -/
def calculate_activity_stats (acts : List Activity) : Option J :=
  if acts.isEmpty then some (J.obj []) else do
    let td ← sumField "distance" acts 0
    let tm ← sumField "moving_time" acts 0
    let te ← sumField "elapsed_time" acts 0
    return J.obj
      [("total_activities", J.num acts.length),
       ("total_distance_miles", J.num td),
       ("total_moving_time_hours", J.num (tm / 3600)),
       ("total_elapsed_time_hours", J.num (te / 3600)),
       ("activity_types", J.vmap (histo acts []))]

/-! ## Sorting the week keys (Python sorted on dict items) -/

/-- Lexicographic comparison of character lists by code point, exactly the
Python string less-than used by sorted. -/
def listLt : List Char → List Char → Bool
  | _, [] => false
  | [], _ :: _ => true
  | a :: as, b :: bs =>
    if a < b then true else if a = b then listLt as bs else false

/-- Python string less-than. -/
def strLt (s t : String) : Bool := listLt s.data t.data

/-- Ordering on grouped items used by sorted(weekly_activities.items()):
tuples compare by their first component, the week-key string (keys of one
dict are distinct, so the second components are never compared). -/
def groupLe (p q : String × List Activity) : Prop :=
  strLt p.1 q.1 = true ∨ p.1 = q.1

instance : DecidableRel groupLe := fun p q => by
  unfold groupLe; infer_instance

/-- Model of sorted(weekly_activities.items()) (strava_analyzer.py:121). -/
def sortGroups (gs : List (String × List Activity)) : List (String × List Activity) :=
  gs.insertionSort groupLe

/-- Per-week statistics over the sorted buckets (strava_analyzer.py:120-122). -/
def weekly_summaries (gs : List (String × List Activity)) : Option (List (String × J)) :=
  mapOpt (fun g => (calculate_activity_stats g.2).map (fun s => (g.1, s))) gs

/-- Embedding of StravaAnalyzer.get_activities_summary
(strava_analyzer.py:86-126). -/
def get_activities_summary (acts : List Activity) (include_weekly : Bool) : Option J :=
  if acts.isEmpty then some (J.obj []) else do
    let cleaned ← clean_activities acts
    let overall ← calculate_activity_stats cleaned
    if include_weekly then do
      let gs ← weekly_groups cleaned []
      let w ← weekly_summaries (sortGroups gs)
      return J.obj [("overall", overall), ("weekly", J.obj w)]
    else
      return J.obj [("overall", overall)]

/-! ## TokenManager and PaginatedFetcher (strava_oauth.py) -/

/-- A raised Python exception: its class and its message.  Every raise in
make_authenticated_request constructs the generic Exception class. -/
structure PyExc where
  cls : String
  msg : String
deriving DecidableEq

/-- An HTTP response as seen by make_authenticated_request: status code, the
decoded body text, the parsed JSON payload (none when json.loads raises, with
jsonErrMsg the str of that decode error). -/
structure Response where
  status : ℕ
  data : String
  json : Option J
  jsonErrMsg : String

/-- Embedding of StravaOAuth.make_authenticated_request
(strava_oauth.py:69-88).  The inner raises (401, non-200, JSON decode) are
all caught by the blanket except clause and re-raised as
Exception with the message Request failed: prefixed to str(e). -/
def make_authenticated_request (resp : Response) : Except PyExc J :=
  if resp.status = 401 then
    Except.error ⟨"Exception", "Request failed: " ++ "Access token expired"⟩
  else if resp.status ≠ 200 then
    Except.error ⟨"Exception", "Request failed: " ++ ("Request failed: " ++ resp.data)⟩
  else
    match resp.json with
    | some j => Except.ok j
    | none => Except.error ⟨"Exception", "Request failed: " ++ resp.jsonErrMsg⟩

/-- Embedding of the pagination loop of StravaOAuth.fetch_all_pages
(strava_oauth.py:90-120) over an abstract page provider (what
make_authenticated_request returns for page=n): stop on an empty page or a
page shorter than per_page, else recurse to the next page.  Returns the
accumulated items in fetch order together with the number of requests
issued; none models running out of fuel (the source loop is unbounded). -/
def fetchLoop (pages : ℕ → List α) (per_page : ℕ) : ℕ → ℕ → Option (List α × ℕ)
  | 0, _ => none
  | fuel + 1, page =>
    let resp := pages page
    if resp.isEmpty then some ([], 1)
    else if resp.length < per_page then some (resp, 1)
    else
      (fetchLoop pages per_page fuel (page + 1)).map
        (fun p => (resp ++ p.1, p.2 + 1))

/-- fetch_all_pages starts at page 1. -/
def fetch_all_pages (pages : ℕ → List α) (per_page fuel : ℕ) : Option (List α × ℕ) :=
  fetchLoop pages per_page fuel 1

/-- A mock provider holding items 0..C-1 served in pages of size P, page
numbering starting at 1. -/
def providerPage (C P page : ℕ) : List ℕ :=
  ((List.range C).drop ((page - 1) * P)).take P

/-- Request count the claim predicts: ceiling of C/P, plus one extra request
only when C is a positive multiple of P. -/
def claimedRequests (C P : ℕ) : ℕ :=
  (C + P - 1) / P + (if 0 < C ∧ C % P = 0 then 1 else 0)

/-! ## The get_activities tool boundary (server.py:75-132) -/

/-- The environment variables read by get_activities. -/
structure Env where
  cid : Option String
  csec : Option String
  tok : Option String

/-- Python x or y on optional strings: empty string and None are falsy. -/
def pyOr (a b : Option String) : Option String :=
  match a with
  | some s => if s = "" then b else some s
  | none => b

/-- Python truthiness of an optional string. -/
def truthy : Option String → Bool
  | some s => decide (s ≠ "")
  | none => false

/-- The missing-credential names, in the order the source appends them
(server.py:109-115). -/
def missing_of (cid csec tok : Option String) : List String :=
  (if truthy cid then [] else ["client_id"]) ++
  (if truthy csec then [] else ["client_secret"]) ++
  (if truthy tok then [] else ["access_token"])

/-- The error object returned across the tool boundary. -/
def errObj (m : String) : J := J.obj [("error", J.str m)]

/-- The missing-credential message (server.py:116-120). -/
def missingMsg (l : List String) : String :=
  "Missing required credentials: " ++ String.intercalate ", " l ++
  ". Please provide them either as arguments or set the corresponding environment variables: STRAVA_CLIENT_ID, STRAVA_CLIENT_SECRET, STRAVA_ACCESS_TOKEN"

/-- Embedding of the get_activities tool (server.py:75-132): resolve each
credential from argument or environment, eagerly return the tagged error
naming the absent ones before any request, otherwise issue the single
authenticated request and convert any raised exception into the tagged
error object.  The second component counts network requests issued. -/
def get_activities (argCid argCsec argTok : Option String) (env : Env)
    (resp : Response) : J × ℕ :=
  let cid := pyOr argCid env.cid
  let csec := pyOr argCsec env.csec
  let tok := pyOr argTok env.tok
  if truthy cid && truthy csec && truthy tok then
    match make_authenticated_request resp with
    | Except.ok j => (j, 1)
    | Except.error e => (errObj e.msg, 1)
  else
    (errObj (missingMsg (missing_of cid csec tok)), 0)

/-! ## Windowed summaries (modelled from the spec) -/

/-- Modelled from the spec: neither get_activities_summary
(strava_analyzer.py) nor summarize_activities (server.py) takes a
windowWeeks parameter; the windowing step 4 of the WeeklyAggregator contract
is absent from the source.  Following the words of the spec, when
windowWeeks is set only the most recent windowWeeks distinct week keys
present in the data are kept, oldest discarded first, on top of the
ascending-ordered weekly grouping of the source. -/
def summarize_windowed (acts : List Activity) (windowWeeks : Option ℕ) :
    Option (List (String × J)) := do
  let cleaned ← clean_activities acts
  let gs ← weekly_groups cleaned []
  weekly_summaries
    (match windowWeeks with
     | some n => (sortGroups gs).drop ((sortGroups gs).length - n)
     | none => sortGroups gs)

/-- Chronological order on calendar dates. -/
def dateLt (t u : Date) : Prop :=
  t.year < u.year ∨ (t.year = u.year ∧
    (t.month < u.month ∨ (t.month = u.month ∧ t.day < u.day)))

/-- Week key k is chronologically before week key k2: both are ISO strings
of valid dates and the first date is earlier. -/
def keyDateLt (k k2 : String) : Prop :=
  ∃ t u, t.validD ∧ u.validD ∧ fmtDate t = k ∧ fmtDate u = k2 ∧ dateLt t u

/-- The week keys of the weekly portion of a summary object. -/
def weeklyKeys (j : J) : List String :=
  match j with
  | J.obj l =>
    match l.lookup "weekly" with
    | some (J.obj w) => w.map Prod.fst
    | _ => []
  | _ => []

/-- The date of an activity as the grouping code sees it: the parsed
start_date timestamp's calendar date. -/
def activityDate (a : Activity) : Option Date := do
  let s ← getStr a "start_date"
  let ts ← parse_start_date s
  return ts.date

/-- A well-formed bucket: keyed by the ISO string of a valid Monday w, and
every activity in it has a parsed start_date whose week Monday is w. -/
def BucketWF (p : String × List Activity) : Prop :=
  ∃ w : Date, w.validD ∧ weekday w = 0 ∧ fmtDate w = p.1 ∧
    ∀ a ∈ p.2, ∃ d : Date, activityDate a = some d ∧ d.validD ∧ weekStart d = w

/-- Well-formedness of the grouping accumulator: keys are distinct and every
bucket is well formed. -/
def GroupsWF (gs : List (String × List Activity)) : Prop :=
  (gs.map Prod.fst).Nodup ∧ ∀ p ∈ gs, BucketWF p

/-- The chain of unit conversions of clean_activity, one convertField step per
metric field. -/
def foldConvert : List (String × ℚ) → Activity → Option Activity
  | [], l => some l
  | (k, f) :: fs, l => (convertField k f l).bind (foldConvert fs)

/-- Sum of a numeric field over exactly the activities that carry it
(reference value for the stats totals). -/
def presentSum (k : String) (acts : List Activity) : ℚ :=
  (acts.filterMap (fun a =>
    match a.lookup k with
    | some (Val.num q) => some q
    | _ => none)).sum

/-- Numeric test on values, used to state decidable side conditions. -/
def isNum : Val → Bool
  | Val.num _ => true
  | _ => false

/-- Numeric test on optional values: holds vacuously for an absent field. -/
def optNum : Option Val → Bool
  | some v => isNum v
  | none => true

/-- Fixture: a one-mile run on Monday 2025-06-02. -/
def actRun1 : Activity :=
  [("start_date", Val.str "2025-06-02T07:00:00Z"),
   ("distance", Val.num 1609.34), ("type", Val.str "Run")]

/-- Fixture: a two-mile run on Monday 2025-06-09. -/
def actRun2 : Activity :=
  [("start_date", Val.str "2025-06-09T07:30:00Z"),
   ("distance", Val.num 3218.68), ("type", Val.str "Run")]

/-- Fixture: the two-activity scenario of the spec. -/
def actsTwo : List Activity := [actRun1, actRun2]

/-- Fixture: a run whose start_date lies on the given day at 06:00 UTC. -/
def mondayActivity (s : String) : Activity :=
  [("start_date", Val.str (s ++ "T06:00:00Z")), ("type", Val.str "Run")]

/-- Fixture: ten runs on ten consecutive Mondays, hence ten distinct weeks. -/
def actsTen : List Activity :=
  (["2025-04-07", "2025-04-14", "2025-04-21", "2025-04-28", "2025-05-05",
    "2025-05-12", "2025-05-19", "2025-05-26", "2025-06-02", "2025-06-09"]).map
    mondayActivity

/-- Fixture: three activities with assorted missing fields: the second lacks
distance, moving_time and type, the third lacks moving_time. -/
def actsStats : List Activity :=
  [[("type", Val.str "Run"), ("distance", Val.num 3), ("moving_time", Val.num 600)],
   [("elapsed_time", Val.num 900)],
   [("type", Val.str "Ride"), ("distance", Val.num 10), ("elapsed_time", Val.num 30)]]

/-- Fixture: an activity whose UTC start_date (Sunday 2025-06-08 late evening)
and local start timestamp (Monday 2025-06-09 early morning) fall in different
weeks. -/
def actLocalDiffers : Activity :=
  [("start_date", Val.str "2025-06-08T23:30:00Z"),
   ("start_date_local", Val.str "2025-06-09T01:30:00Z"),
   ("type", Val.str "Run")]

/-! ## C8: empty input -/

/-- C8: get_activities_summary applied to an empty activity list returns the
empty mapping for every value of include_weekly, without error
(strava_analyzer.py:96-97 returns the empty dict before any other work). -/
theorem C8_empty_input (include_weekly : Bool) :
    get_activities_summary [] include_weekly = some (J.obj []) := rfl

/-! ## C3: pagination -/

theorem providerPage_isEmpty {C P q : ℕ} (h : C ≤ q * P) :
    (providerPage C P (q + 1)).isEmpty = true := by
  unfold providerPage
  rw [Nat.add_sub_cancel, List.drop_eq_nil_of_le (by simpa using h)]
  simp

theorem providerPage_length (C P q : ℕ) :
    (providerPage C P (q + 1)).length = min P (C - q * P) := by
  simp [providerPage]

theorem fetchLoop_provider (C P : ℕ) (hP : 0 < P) :
    ∀ fuel q, 1 ≤ fuel → C + P ≤ q * P + fuel * P →
      fetchLoop (providerPage C P) P fuel (q + 1)
        = some ((List.range C).drop (q * P), (C - q * P) / P + 1) := by
  intro fuel
  induction fuel with
  | zero => omega
  | succ fuel ih =>
    intro q _ hbound
    show (if (providerPage C P (q + 1)).isEmpty then _
          else if (providerPage C P (q + 1)).length < P then _ else _) = _
    have hlen := providerPage_length C P q
    by_cases hend : C ≤ q * P
    · rw [if_pos (providerPage_isEmpty hend)]
      rw [List.drop_eq_nil_of_le (by simpa using hend)]
      have h0 : C - q * P = 0 := by omega
      rw [h0, Nat.zero_div]
    · push_neg at hend
      have hpos : 0 < (providerPage C P (q + 1)).length := by
        rw [hlen]
        exact lt_min hP (by omega)
      have hne : (providerPage C P (q + 1)).isEmpty = false := by
        cases hl : providerPage C P (q + 1) with
        | nil => rw [hl] at hpos; simp at hpos
        | cons a l => rfl
      rw [hne, if_neg (by simp)]
      by_cases hshort : C - q * P < P
      · rw [if_pos (by rw [hlen]; exact lt_of_le_of_lt (Nat.min_le_right _ _) hshort)]
        have htake : providerPage C P (q + 1) = (List.range C).drop (q * P) := by
          unfold providerPage
          rw [Nat.add_sub_cancel]
          apply List.take_of_length_le
          simp
          omega
        rw [htake, Nat.div_eq_of_lt hshort]
      · push_neg at hshort
        rw [if_neg (by rw [hlen]; omega)]
        have hfuel1 : 1 ≤ fuel := by
          rcases Nat.eq_zero_or_pos fuel with h0 | h0
          · exfalso
            subst h0
            have h1 : q * P + 1 * P = q * P + P := by ring
            omega
          · exact h0
        have hbound2 : C + P ≤ (q + 1) * P + fuel * P := by
          have h1 : q * P + (fuel + 1) * P = (q + 1) * P + fuel * P := by ring
          omega
        rw [show q + 1 + 1 = (q + 1) + 1 from rfl, ih (q + 1) hfuel1 hbound2]
        simp only [Option.map_some']
        have hsplit : providerPage C P (q + 1) ++ (List.range C).drop ((q + 1) * P)
            = (List.range C).drop (q * P) := by
          unfold providerPage
          rw [Nat.add_sub_cancel]
          have h1 : (q + 1) * P = q * P + P := by ring
          rw [h1, ← List.drop_drop]
          exact List.take_append_drop P ((List.range C).drop (q * P))
        rw [hsplit]
        have hc1 : C - (q + 1) * P = C - q * P - P := by
          have h1 : (q + 1) * P = q * P + P := by ring
          omega
        rw [hc1, ← Nat.div_eq_sub_div hP hshort]

/-- C3 counterexample: for an empty provider (C = 0) the loop still issues one
request (to observe the empty first page), while the claim predicts
ceil(0/P) = 0 requests and allows no extra request since 0 is not a positive
multiple of P. -/
theorem C3_counterexample :
    (fetch_all_pages (providerPage 0 30) 30 2).map Prod.snd = some 1 ∧
      claimedRequests 0 30 = 0 ∧
      (fetch_all_pages (providerPage 0 30) 30 2).map Prod.snd ≠
        some (claimedRequests 0 30) := by
  refine ⟨by decide, by decide, by decide⟩

/-- C3 (amended): fetch_all_pages starts at page 1, accumulates items in fetch
order and terminates exactly when a page is empty or shorter than per_page;
for a provider holding C items in pages of size P > 0 it returns exactly the C
items in order and issues floor(C/P) + 1 requests, which equals ceil(C/P)
when C is not a multiple of P and is one more than ceil(C/P) when C is a
multiple of P (including C = 0, where the single request sees the empty first
page). -/
theorem C3_pagination (C P : ℕ) (hP : 0 < P) :
    fetch_all_pages (providerPage C P) P (C / P + 2)
      = some (List.range C, C / P + 1) ∧
    (C % P ≠ 0 → C / P + 1 = (C + P - 1) / P) ∧
    (C % P = 0 → C / P + 1 = (C + P - 1) / P + 1) := by
  refine ⟨?_, ?_, ?_⟩
  · have h := fetchLoop_provider C P hP (C / P + 2) 0 (Nat.le_add_left 1 (C / P + 1)) (by
      have h1 := Nat.div_add_mod C P
      have h2 := Nat.mod_lt C hP
      have h3 : (C / P + 2) * P = P * (C / P) + 2 * P := by ring
      omega)
    simpa [fetch_all_pages] using h
  · intro hmod
    have h1 := Nat.div_add_mod C P
    have h2 := Nat.mod_lt C hP
    have h3 : C + P - 1 = P * (C / P) + (C % P + (P - 1)) := by omega
    rw [h3, Nat.mul_add_div hP]
    have h4 : (C % P + (P - 1)) / P = 1 := by
      apply Nat.div_eq_of_lt_le
      · rw [one_mul]; omega
      · have e2 : (1 + 1) * P = P + P := by ring
        rw [e2]; omega
    omega
  · intro hmod
    have h1 := Nat.div_add_mod C P
    have h2 := Nat.mod_lt C hP
    rcases Nat.eq_zero_or_pos C with h0 | h0
    · subst h0
      rw [Nat.zero_div]
      have h4 : (0 + P - 1) / P = 0 := Nat.div_eq_of_lt (by omega)
      omega
    · have h3 : C + P - 1 = P * (C / P) + (P - 1) := by omega
      rw [h3, Nat.mul_add_div hP]
      have h4 : (P - 1) / P = 0 := Nat.div_eq_of_lt (by omega)
      omega

/-- C3 witness: 65 items in pages of 30 are returned completely in 3 requests
(two full pages and a final short page). -/
theorem C3_pagination_witness :
    0 < 30 ∧
      fetch_all_pages (providerPage 65 30) 30 (65 / 30 + 2)
        = some (List.range 65, 65 / 30 + 1) :=
  ⟨by decide, (C3_pagination 65 30 (by decide)).1⟩

/-! ## C4: error discrimination in make_authenticated_request -/

theorem make_authenticated_request_error_cls (resp : Response) (e : PyExc)
    (h : make_authenticated_request resp = Except.error e) : e.cls = "Exception" := by
  unfold make_authenticated_request at h
  split_ifs at h with h1 h2
  · cases h; rfl
  · cases h; rfl
  · revert h
    cases resp.json with
    | some j => intro h; cases h
    | none => intro h; cases h; rfl

/-- C4 counterexample: a 401 response and a 500 response both surface as the
generic Exception class (the blanket except clause re-raises everything as
Exception), so the two failures are not distinguishable by the error's type,
contradicting the claim that 401 raises a type distinct from other
non-success statuses. -/
theorem C4_counterexample :
    make_authenticated_request ⟨401, "Unauthorized", none, ""⟩
        = Except.error ⟨"Exception", "Request failed: Access token expired"⟩ ∧
      make_authenticated_request ⟨500, "Internal Server Error", none, ""⟩
        = Except.error ⟨"Exception", "Request failed: Request failed: Internal Server Error"⟩ ∧
      (⟨"Exception", "Request failed: Access token expired"⟩ : PyExc).cls
        = (⟨"Exception", "Request failed: Request failed: Internal Server Error"⟩ : PyExc).cls :=
  ⟨rfl, rfl, rfl⟩

/-- C4 (amended): make_authenticated_request raises on an HTTP 401 response
and on every other non-200 response, but both raises carry the same generic
Exception class: a 401 yields the message Request failed: Access token
expired while any other non-success status yields Request failed: Request
failed: followed by the body, so a caller can distinguish token expiry from
generic failure only by message text, never by the error's type. -/
theorem C4_same_error_type (resp resp2 : Response) :
    (resp.status = 401 →
      make_authenticated_request resp
        = Except.error ⟨"Exception", "Request failed: Access token expired"⟩) ∧
    (resp.status ≠ 401 → resp.status ≠ 200 →
      make_authenticated_request resp
        = Except.error ⟨"Exception", "Request failed: Request failed: " ++ resp.data⟩) ∧
    (∀ e e2, make_authenticated_request resp = Except.error e →
      make_authenticated_request resp2 = Except.error e2 → e.cls = e2.cls) := by
  refine ⟨?_, ?_, ?_⟩
  · intro h
    unfold make_authenticated_request
    rw [if_pos h]
    rfl
  · intro h1 h2
    unfold make_authenticated_request
    rw [if_neg h1, if_pos h2]
    rfl
  · intro e e2 h1 h2
    rw [make_authenticated_request_error_cls resp e h1,
      make_authenticated_request_error_cls resp2 e2 h2]

/-- C4 witness: instantiating the amended statement at a concrete 401 response
and a concrete 500 response. -/
theorem C4_same_error_type_witness :
    make_authenticated_request ⟨401, "x", none, ""⟩
        = Except.error ⟨"Exception", "Request failed: Access token expired"⟩ ∧
      make_authenticated_request ⟨500, "boom", none, ""⟩
        = Except.error ⟨"Exception", "Request failed: Request failed: " ++ "boom"⟩ :=
  ⟨(C4_same_error_type ⟨401, "x", none, ""⟩ ⟨500, "boom", none, ""⟩).1 rfl,
    (C4_same_error_type ⟨500, "boom", none, ""⟩ ⟨401, "x", none, ""⟩).2.1
      (by decide) (by decide)⟩

/-! ## C9: the get_activities tool boundary -/

/-- C9: get_activities checks credentials eagerly — when any of client_id,
client_secret, access_token resolves to a falsy value it returns the tagged
error object naming exactly the absent fields and issues zero network
requests; when all are present the single request is issued and any raised
exception is returned as a tagged error object instead of propagating. -/
theorem C9_boundary_errors (argCid argCsec argTok : Option String) (env : Env)
    (resp : Response) :
    (¬(truthy (pyOr argCid env.cid) = true ∧ truthy (pyOr argCsec env.csec) = true ∧
        truthy (pyOr argTok env.tok) = true) →
      get_activities argCid argCsec argTok env resp
        = (errObj (missingMsg (missing_of (pyOr argCid env.cid) (pyOr argCsec env.csec)
            (pyOr argTok env.tok))), 0) ∧
      missing_of (pyOr argCid env.cid) (pyOr argCsec env.csec) (pyOr argTok env.tok) ≠ []) ∧
    ("client_id" ∈ missing_of (pyOr argCid env.cid) (pyOr argCsec env.csec) (pyOr argTok env.tok)
      ↔ truthy (pyOr argCid env.cid) = false) ∧
    ("client_secret" ∈ missing_of (pyOr argCid env.cid) (pyOr argCsec env.csec) (pyOr argTok env.tok)
      ↔ truthy (pyOr argCsec env.csec) = false) ∧
    ("access_token" ∈ missing_of (pyOr argCid env.cid) (pyOr argCsec env.csec) (pyOr argTok env.tok)
      ↔ truthy (pyOr argTok env.tok) = false) ∧
    (∀ j, make_authenticated_request resp = Except.ok j →
      truthy (pyOr argCid env.cid) = true → truthy (pyOr argCsec env.csec) = true →
      truthy (pyOr argTok env.tok) = true →
      get_activities argCid argCsec argTok env resp = (j, 1)) ∧
    (∀ e, make_authenticated_request resp = Except.error e →
      truthy (pyOr argCid env.cid) = true → truthy (pyOr argCsec env.csec) = true →
      truthy (pyOr argTok env.tok) = true →
      get_activities argCid argCsec argTok env resp = (errObj e.msg, 1)) := by
  cases hc : truthy (pyOr argCid env.cid) <;>
    cases hs : truthy (pyOr argCsec env.csec) <;>
      cases ht : truthy (pyOr argTok env.tok) <;>
        refine ⟨fun hmiss => ⟨?_, ?_⟩, ?_, ?_, ?_, fun j hj h1 h2 h3 => ?_,
          fun e he h1 h2 h3 => ?_⟩ <;>
          simp_all [get_activities, missing_of]

/-- C9 witness: with only the access token absent, the call returns the tagged
error naming exactly access_token and issues no request. -/
theorem C9_boundary_errors_witness :
    get_activities (some "id") (some "sec") none ⟨none, none, none⟩
        ⟨200, "", some (J.num 0), ""⟩
      = (errObj (missingMsg ["access_token"]), 0) ∧
    ("access_token" ∈ missing_of (some "id") (some "sec") none ↔
      truthy (pyOr (none : Option String) (none : Option String)) = false) := by
  have h := C9_boundary_errors (some "id") (some "sec") none ⟨none, none, none⟩
    ⟨200, "", some (J.num 0), ""⟩
  exact ⟨(h.1 (by decide)).1, h.2.2.2.1⟩

/-! ## C5: clean_activity -/

/-- C5 counterexample: a record carrying a non-numeric distance value makes
clean_activity fail (the Python code evaluates a string times a float, a
TypeError), so clean_activity is not total on every input record. -/
theorem C5_counterexample :
    clean_activity [("distance", Val.str "marathon")] = none := rfl

theorem lookup_cons_eq {κ α : Type _} [BEq κ] [LawfulBEq κ] (k : κ) (v : α)
    (l : List (κ × α)) : ((k, v) :: l).lookup k = some v := by
  simp [List.lookup]

theorem lookup_cons_ne {κ α : Type _} [BEq κ] [LawfulBEq κ] (k k2 : κ) (v : α)
    (l : List (κ × α)) (h : k ≠ k2) : ((k2, v) :: l).lookup k = l.lookup k := by
  have hb : (k == k2) = false := by simpa using h
  simp [List.lookup, hb]

theorem lookup_none_iff {α : Type _} (l : List (String × α)) (k : String) :
    l.lookup k = none ↔ ∀ kv ∈ l, kv.1 ≠ k := by
  induction l with
  | nil => simp
  | cons kv l ih =>
    obtain ⟨k2, v2⟩ := kv
    by_cases hk : k = k2
    · subst hk
      simp [lookup_cons_eq]
    · rw [lookup_cons_ne k k2 v2 l hk, ih]
      constructor
      · intro h2 kv hkv
        rcases List.mem_cons.mp hkv with h3 | h3
        · subst h3; exact fun he => hk he.symm
        · exact h2 kv h3
      · intro h2 kv hkv
        exact h2 kv (List.mem_cons_of_mem _ hkv)

theorem lookup_none_of_not_mem_keys {α : Type _} (l : List (String × α)) (k : String)
    (h : k ∉ l.map Prod.fst) : l.lookup k = none := by
  rw [lookup_none_iff]
  intro kv hkv he
  exact h (he ▸ List.mem_map_of_mem Prod.fst hkv)

theorem convertBody_mapM (k : String) (f : ℚ) :
    ∀ l : Activity, (∀ kv ∈ l, kv.1 = k → ∃ q, kv.2 = Val.num q) →
      l.mapM (fun kv =>
          if kv.1 = k then
            match kv.2 with
            | Val.num q => some (kv.1, Val.num (q * f))
            | _ => none
          else some kv)
        = some (l.map (fun kv => if kv.1 = k then (kv.1, mulVal kv.2 f) else kv)) := by
  intro l
  induction l with
  | nil => intro; rfl
  | cons kv l ih =>
    intro h
    rw [List.mapM_cons]
    by_cases hk : kv.1 = k
    · obtain ⟨q, hq⟩ := h kv (List.mem_cons_self kv l) hk
      rw [ih (fun kv2 h2 => h kv2 (List.mem_cons_of_mem kv h2))]
      simp [hk, hq, mulVal]
    · rw [ih (fun kv2 h2 => h kv2 (List.mem_cons_of_mem kv h2))]
      simp [hk]

theorem convertField_eq (k : String) (f : ℚ) (l : Activity)
    (h : ∀ kv ∈ l, kv.1 = k → ∃ q, kv.2 = Val.num q) :
    convertField k f l
      = some (l.map (fun kv => if kv.1 = k then (kv.1, mulVal kv.2 f) else kv)) := by
  unfold convertField
  by_cases hl : (l.lookup k).isSome
  · rw [if_pos hl]
    exact convertBody_mapM k f l h
  · rw [if_neg hl]
    have hnone : l.lookup k = none := by
      cases hopt : l.lookup k
      · rfl
      · rw [hopt] at hl; simp at hl
    have hall := (lookup_none_iff l k).mp hnone
    congr 1
    symm
    calc l.map (fun kv => if kv.1 = k then (kv.1, mulVal kv.2 f) else kv)
        = l.map id := List.map_congr_left (fun kv hkv => by
          rw [if_neg (hall kv hkv)]; rfl)
      _ = l := List.map_id l

theorem foldConvert_eq (fs : List (String × ℚ)) :
    ∀ l : Activity, (fs.map Prod.fst).Nodup →
      (∀ kv ∈ l, ∀ f, fs.lookup kv.1 = some f → ∃ q, kv.2 = Val.num q) →
      foldConvert fs l
        = some (l.map (fun kv =>
            match fs.lookup kv.1 with
            | some f => (kv.1, mulVal kv.2 f)
            | none => kv)) := by
  induction fs with
  | nil =>
    intro l _ _
    unfold foldConvert
    congr 1
    symm
    calc l.map (fun kv =>
            match ([] : List (String × ℚ)).lookup kv.1 with
            | some f => (kv.1, mulVal kv.2 f)
            | none => kv)
        = l.map id := List.map_congr_left (fun kv _ => rfl)
      _ = l := List.map_id l
  | cons kf fs ih =>
    obtain ⟨k, f⟩ := kf
    intro l hnd h
    have hnd2 : (fs.map Prod.fst).Nodup := (List.nodup_cons.mp hnd).2
    have hk_notin : k ∉ fs.map Prod.fst := (List.nodup_cons.mp hnd).1
    have hfs_none : fs.lookup k = none := lookup_none_of_not_mem_keys fs k hk_notin
    unfold foldConvert
    rw [convertField_eq k f l (fun kv hkv hk => h kv hkv f (by
      rw [hk, lookup_cons_eq]))]
    rw [Option.some_bind]
    rw [ih (l.map (fun kv => if kv.1 = k then (kv.1, mulVal kv.2 f) else kv)) hnd2
      (by
        intro kv hkv f2 hf2
        obtain ⟨kv0, hkv0, hkv0e⟩ := List.mem_map.mp hkv
        by_cases hcase : kv0.1 = k
        · exfalso
          have hfst : kv.1 = k := by
            rw [← hkv0e, if_pos hcase]
            exact hcase
          rw [hfst, hfs_none] at hf2
          cases hf2
        · have hkv_eq : kv = kv0 := by rw [← hkv0e, if_neg hcase]
          rw [hkv_eq] at hf2 ⊢
          exact h kv0 hkv0 f2 (by rw [lookup_cons_ne kv0.1 k f fs hcase]; exact hf2))]
    congr 1
    rw [List.map_map]
    apply List.map_congr_left
    intro kv _
    by_cases hcase : kv.1 = k
    · simp only [Function.comp, if_pos hcase]
      rw [hcase, lookup_cons_eq, hfs_none]
    · simp only [Function.comp, if_neg hcase]
      rw [lookup_cons_ne kv.1 k f fs hcase]

theorem isNum_exists {v : Val} (h : isNum v = true) : ∃ q, v = Val.num q := by
  cases v with
  | num q => exact ⟨q, rfl⟩
  | str s => simp [isNum] at h

theorem contains_false_iff (l : List String) (s : String) :
    (l.contains s) = false ↔ s ∉ l := by
  rw [← Bool.not_eq_true]
  constructor
  · intro h hm; exact h (List.elem_eq_true_of_mem hm)
  · intro h hm; exact h (List.mem_of_elem_eq_true hm)

theorem cleanEntry_fst (kv : String × Val) : (cleanEntry kv).1 = kv.1 := by
  unfold cleanEntry
  cases metric_fields.lookup kv.1 <;> rfl

/-- C5 (amended): clean_activity is total on every record whose metric
fields, when present, hold numeric values (a non-numeric metric value is a
Python TypeError, see the counterexample); on such records the four keys
athlete, map, start_latlng, end_latlng are removed unconditionally, each of
the six metric fields is multiplied by its factor exactly when present, a
field absent in the input stays absent in the output, every other field
passes through unchanged, and a record with no metric fields present is
returned unchanged aside from the removed keys. -/
theorem C5_clean_activity (a : Activity)
    (h : ∀ kv ∈ a, ∀ f, metric_fields.lookup kv.1 = some f → ∃ q, kv.2 = Val.num q) :
    clean_activity a = some (cleanSpec a) ∧
    (∀ k ∈ fields_to_remove, (cleanSpec a).lookup k = none) ∧
    (∀ k, a.lookup k = none → (cleanSpec a).lookup k = none) ∧
    (∀ kv ∈ a, kv.1 ∉ fields_to_remove → metric_fields.lookup kv.1 = none →
      kv ∈ cleanSpec a) ∧
    ((∀ kv ∈ a, metric_fields.lookup kv.1 = none) →
      cleanSpec a = a.filter (fun kv => !(fields_to_remove.contains kv.1))) := by
  refine ⟨?_, ?_, ?_, ?_, ?_⟩
  · have he : clean_activity a
        = foldConvert metric_fields (a.filter (fun kv => !(fields_to_remove.contains kv.1))) :=
      rfl
    rw [he, foldConvert_eq metric_fields _ (by decide) (fun kv hkv f hf =>
      h kv (List.mem_filter.mp hkv).1 f hf)]
    rfl
  · intro k hk
    rw [lookup_none_iff]
    intro kv hkv
    obtain ⟨kv0, hkv0, hkv0e⟩ := List.mem_map.mp hkv
    have hfst : kv.1 = kv0.1 := by rw [← hkv0e, cleanEntry_fst]
    have hfilter := (List.mem_filter.mp hkv0).2
    have hnotin : kv0.1 ∉ fields_to_remove := by
      rw [← contains_false_iff]
      cases hcon : fields_to_remove.contains kv0.1
      · rfl
      · rw [hcon] at hfilter; simp at hfilter
    rw [hfst]
    exact fun he => hnotin (he ▸ hk)
  · intro k hnone
    have hall := (lookup_none_iff a k).mp hnone
    rw [lookup_none_iff]
    intro kv hkv
    obtain ⟨kv0, hkv0, hkv0e⟩ := List.mem_map.mp hkv
    have hfst : kv.1 = kv0.1 := by rw [← hkv0e, cleanEntry_fst]
    rw [hfst]
    exact hall kv0 (List.mem_filter.mp hkv0).1
  · intro kv hkv hnr hnm
    have hmemf : kv ∈ a.filter (fun kv => !(fields_to_remove.contains kv.1)) := by
      rw [List.mem_filter]
      refine ⟨hkv, ?_⟩
      rw [(contains_false_iff fields_to_remove kv.1).mpr hnr]
      rfl
    have hentry : cleanEntry kv = kv := by
      unfold cleanEntry
      rw [hnm]
    exact hentry ▸ List.mem_map_of_mem cleanEntry hmemf
  · intro hnom
    unfold cleanSpec
    calc (a.filter (fun kv => !(fields_to_remove.contains kv.1))).map cleanEntry
        = (a.filter (fun kv => !(fields_to_remove.contains kv.1))).map id :=
          List.map_congr_left (fun kv hkv => by
            unfold cleanEntry
            rw [hnom kv (List.mem_filter.mp hkv).1]
            rfl)
      _ = _ := List.map_id _

/-- C5 witness: the amended statement applied to the one-mile-run fixture,
whose only metric field carries a number. -/
theorem C5_clean_activity_witness :
    clean_activity actRun1 = some (cleanSpec actRun1) :=
  (C5_clean_activity actRun1 (fun kv hkv f hf =>
    isNum_exists
      ((by decide : ∀ kv ∈ actRun1, metric_fields.lookup kv.1 ≠ none → isNum kv.2 = true)
        kv hkv (by rw [hf]; exact fun hc => Option.noConfusion hc)))).1

/-! ## Calendar lemmas -/

theorem isLeap_iff (y : ℕ) :
    isLeap y = true ↔ (y % 4 = 0 ∧ (y % 100 ≠ 0 ∨ y % 400 = 0)) := by
  unfold isLeap
  simp [Bool.and_eq_true, Bool.or_eq_true, decide_eq_true_eq]

theorem daysInMonth_pos (y m : ℕ) : 1 ≤ daysInMonth y m := by
  unfold daysInMonth
  split
  · split_ifs <;> omega
  all_goals omega

theorem daysInMonth_le31 (y m : ℕ) : daysInMonth y m ≤ 31 := by
  unfold daysInMonth
  split
  · split_ifs <;> omega
  all_goals omega

theorem toRataDie_pos (t : Date) (hv : t.validD) : 1 ≤ toRataDie t := by
  obtain ⟨h1, h2, h3, h4, h5, h6⟩ := hv
  unfold toRataDie
  omega

theorem leaps_step (y : ℕ) (hy2' : 2 ≤ y) :
    365 * (y - 1 - 1) + leaps (y - 1 - 1)
        + (334 + (if isLeap (y - 1) = true then 1 else 0)) + 31 + 1
      = 365 * (y - 1) + leaps (y - 1) + 0 + 1 := by
  unfold leaps
  by_cases hL : isLeap (y - 1) = true
  · have hA := (isLeap_iff (y - 1)).mp hL
    rw [if_pos hL]
    clear hL
    omega
  · have hA : ¬((y - 1) % 4 = 0 ∧ ((y - 1) % 100 ≠ 0 ∨ (y - 1) % 400 = 0)) :=
      fun hc => hL ((isLeap_iff (y - 1)).mpr hc)
    rw [if_neg hL]
    clear hL
    omega

theorem dbm_step (y m : ℕ) (h2 : 2 ≤ m) (h12 : m ≤ 12) :
    daysBeforeMonth y m = daysBeforeMonth y (m - 1) + daysInMonth y (m - 1) := by
  interval_cases m <;> by_cases hL : isLeap y = true <;>
    simp [daysBeforeMonth, daysInMonth, hL]

theorem prevDay_spec (t : Date) (hv : t.validD) (h2 : 2 ≤ toRataDie t) :
    (prevDay t).validD ∧ toRataDie (prevDay t) + 1 = toRataDie t := by
  obtain ⟨y, m, d⟩ := t
  obtain ⟨hy1, hy2, hm1, hm2, hd1, hd2⟩ := hv
  simp only at hy1 hy2 hm1 hm2 hd1 hd2
  unfold prevDay
  simp only
  split_ifs with hd hm
  · refine ⟨⟨hy1, hy2, hm1, hm2, by dsimp only; omega, by dsimp only; omega⟩, ?_⟩
    unfold toRataDie
    dsimp only
    omega
  · have hdone : d = 1 := by omega
    refine ⟨⟨hy1, hy2, by dsimp only; omega, by dsimp only; omega,
      daysInMonth_pos y (m - 1), le_refl _⟩, ?_⟩
    subst hdone
    have hstep := dbm_step y m (by omega) hm2
    unfold toRataDie
    dsimp only
    omega
  · have hdone : d = 1 := by omega
    have hmone : m = 1 := by omega
    subst hdone
    subst hmone
    have hy2' : 2 ≤ y := by
      by_contra hcon
      have hyone : y = 1 := by omega
      subst hyone
      simp [toRataDie, daysBeforeMonth, leaps] at h2
    constructor
    · refine ⟨by dsimp only; omega, by dsimp only; omega, by dsimp only; omega,
        by dsimp only; omega, by dsimp only; omega, ?_⟩
      show (31 : ℕ) ≤ daysInMonth (y - 1) 12
      have h31 : daysInMonth (y - 1) 12 = 31 := rfl
      omega
    · have hdb1 : daysBeforeMonth y 1 = 0 := by
        unfold daysBeforeMonth
        simp
      have hdb12 : daysBeforeMonth (y - 1) 12
          = 334 + (if isLeap (y - 1) = true then 1 else 0) := by
        unfold daysBeforeMonth
        simp
      show toRataDie ⟨y - 1, 12, 31⟩ + 1 = toRataDie ⟨y, 1, 1⟩
      unfold toRataDie
      dsimp only
      rw [hdb1, hdb12]
      exact leaps_step y hy2'

theorem subDays_spec : ∀ (k : ℕ) (t : Date), t.validD → k < toRataDie t →
    (subDays t k).validD ∧ toRataDie (subDays t k) + k = toRataDie t := by
  intro k
  induction k with
  | zero => exact fun t hv _ => ⟨hv, rfl⟩
  | succ k ih =>
    intro t hv hk
    have h2 : 2 ≤ toRataDie t := by omega
    obtain ⟨hpv, hpe⟩ := prevDay_spec t hv h2
    have hk2 : k < toRataDie (prevDay t) := by omega
    obtain ⟨hv2, he2⟩ := ih (prevDay t) hpv hk2
    refine ⟨hv2, ?_⟩
    show toRataDie (subDays (prevDay t) k) + (k + 1) = toRataDie t
    omega

theorem weekday_lt7 (t : Date) : weekday t < 7 :=
  Nat.mod_lt _ (by omega)

theorem weekStart_spec (t : Date) (hv : t.validD) :
    (weekStart t).validD ∧ toRataDie (weekStart t) + weekday t = toRataDie t ∧
      weekday (weekStart t) = 0 := by
  have hpos := toRataDie_pos t hv
  have hwlt : weekday t < toRataDie t := by
    unfold weekday
    omega
  obtain ⟨hv2, he⟩ := subDays_spec (weekday t) t hv hwlt
  refine ⟨hv2, he, ?_⟩
  have he2 : toRataDie (weekStart t) + (toRataDie t - 1) % 7 = toRataDie t := he
  show (toRataDie (weekStart t) - 1) % 7 = 0
  clear he hwlt
  omega

/-! ## Parser lemmas -/

theorem takeDigits_lt : ∀ (k acc : ℕ) (cs : List Char),
    (takeDigits k acc cs).1 < (acc + 1) * 10 ^ k := by
  have base : ∀ (acc k : ℕ), acc < (acc + 1) * 10 ^ k := by
    intro acc k
    have h10 : 1 ≤ 10 ^ k := Nat.one_le_pow k 10 (by omega)
    calc acc < acc + 1 := Nat.lt_succ_self acc
      _ = (acc + 1) * 1 := (Nat.mul_one _).symm
      _ ≤ (acc + 1) * 10 ^ k := Nat.mul_le_mul_left _ h10
  intro k
  induction k with
  | zero => intro acc cs; exact base acc 0
  | succ k ih =>
    intro acc cs
    cases cs with
    | nil => exact base acc (k + 1)
    | cons c cs2 =>
      show (if isDig c then takeDigits k (acc * 10 + (c.toNat - 48)) cs2
            else (acc, c :: cs2)).1 < _
      by_cases hdig : isDig c
      · rw [if_pos hdig]
        have hd9 : c.toNat - 48 ≤ 9 := by
          unfold isDig at hdig
          simp [Bool.and_eq_true, decide_eq_true_eq] at hdig
          omega
        have hrec := ih (acc * 10 + (c.toNat - 48)) cs2
        have hstep : (acc * 10 + (c.toNat - 48) + 1) * 10 ^ k ≤ (acc + 1) * 10 ^ (k + 1) := by
          have h1 : acc * 10 + (c.toNat - 48) + 1 ≤ (acc + 1) * 10 := by omega
          calc (acc * 10 + (c.toNat - 48) + 1) * 10 ^ k
              ≤ ((acc + 1) * 10) * 10 ^ k := Nat.mul_le_mul_right _ h1
            _ = (acc + 1) * 10 ^ (k + 1) := by ring
        omega
      · rw [if_neg hdig]
        exact base acc (k + 1)

theorem parseNum_lt (m : ℕ) (hm : 1 ≤ m) (cs : List Char) (n : ℕ) (r : List Char)
    (h : parseNum m cs = some (n, r)) : n < 10 ^ m := by
  cases cs with
  | nil => cases h
  | cons c cs2 =>
    replace h : (if isDig c then some (takeDigits (m - 1) (c.toNat - 48) cs2) else none)
        = some (n, r) := h
    by_cases hdig : isDig c
    · rw [if_pos hdig] at h
      injection h with h
      have hd9 : c.toNat - 48 ≤ 9 := by
        unfold isDig at hdig
        simp [Bool.and_eq_true, decide_eq_true_eq] at hdig
        omega
      have hb := takeDigits_lt (m - 1) (c.toNat - 48) cs2
      rw [h] at hb
      have hle : (c.toNat - 48 + 1) * 10 ^ (m - 1) ≤ 10 ^ m := by
        have h1 : c.toNat - 48 + 1 ≤ 10 := by omega
        calc (c.toNat - 48 + 1) * 10 ^ (m - 1) ≤ 10 * 10 ^ (m - 1) :=
            Nat.mul_le_mul_right _ h1
          _ = 10 ^ (m - 1 + 1) := by ring
          _ = 10 ^ m := by congr 1; omega
      omega
    · rw [if_neg hdig] at h
      cases h

theorem bind_some_inv {α β : Type _} {x : Option α} {f : α → Option β} {b : β}
    (h : (x >>= f) = some b) : ∃ a, x = some a ∧ f a = some b := by
  cases x with
  | none => cases h
  | some a => exact ⟨a, rfl, h⟩

theorem parse_start_date_valid (s : String) (ts : Timestamp)
    (h : parse_start_date s = some ts) : ts.date.validD := by
  unfold parse_start_date at h
  obtain ⟨⟨y, r1⟩, hy, h⟩ := bind_some_inv h
  obtain ⟨r2, hr2, h⟩ := bind_some_inv h
  obtain ⟨⟨mo, r3⟩, hmo, h⟩ := bind_some_inv h
  obtain ⟨r4, hr4, h⟩ := bind_some_inv h
  obtain ⟨⟨d, r5⟩, hd, h⟩ := bind_some_inv h
  obtain ⟨r6, hr6, h⟩ := bind_some_inv h
  obtain ⟨⟨hh, r7⟩, hhh, h⟩ := bind_some_inv h
  obtain ⟨r8, hr8, h⟩ := bind_some_inv h
  obtain ⟨⟨mi, r9⟩, hmi, h⟩ := bind_some_inv h
  obtain ⟨r10, hr10, h⟩ := bind_some_inv h
  obtain ⟨⟨sec, r11⟩, hsec, h⟩ := bind_some_inv h
  obtain ⟨r12, hr12, h⟩ := bind_some_inv h
  split_ifs at h with hcond
  · injection h with h
    subst h
    obtain ⟨hrnil, hy1, hmo1, hmo2, hd1, hd2, hhh1, hmi1, hsec1⟩ := hcond
    have hy4 : y < 10000 := by
      have hb := parseNum_lt 4 (by omega) s.data y r1 hy
      simpa using hb
    refine ⟨hy1, ?_, hmo1, hmo2, hd1, hd2⟩
    dsimp only
    omega

/-! ## String-order bridge: the lexicographic order on formatted dates is the
chronological order -/

theorem digitCharFacts : ∀ a < 10, ∀ b < 10,
    ((Char.ofNat (48 + a) < Char.ofNat (48 + b)) ↔ a < b) ∧
    ((Char.ofNat (48 + a) = Char.ofNat (48 + b)) ↔ a = b) := by decide

theorem digitChar_lt_iff (a b : ℕ) : (digitChar a < digitChar b) ↔ a % 10 < b % 10 :=
  (digitCharFacts (a % 10) (Nat.mod_lt a (by omega)) (b % 10) (Nat.mod_lt b (by omega))).1

theorem digitChar_eq_iff (a b : ℕ) : (digitChar a = digitChar b) ↔ a % 10 = b % 10 :=
  (digitCharFacts (a % 10) (Nat.mod_lt a (by omega)) (b % 10) (Nat.mod_lt b (by omega))).2

theorem listLt_nil (l : List Char) : listLt l [] = false := by cases l <;> rfl

theorem listLt_cons (a b : Char) (as bs : List Char) :
    listLt (a :: as) (b :: bs)
      = if a < b then true else if a = b then listLt as bs else false := rfl

theorem listLt_irrefl : ∀ l : List Char, listLt l l = false
  | [] => rfl
  | c :: cs => by
    rw [listLt_cons, if_neg (lt_irrefl c), if_pos rfl]
    exact listLt_irrefl cs

theorem strLt_irrefl (s : String) : strLt s s = false := listLt_irrefl s.data

theorem listLt_step (a b : ℕ) (r : Bool) :
    ((if digitChar a < digitChar b then true
      else if digitChar a = digitChar b then r else false) = true)
      ↔ (a % 10 < b % 10 ∨ (a % 10 = b % 10 ∧ r = true)) := by
  split_ifs with h1 h2
  · have hl := (digitChar_lt_iff a b).mp h1
    simp [hl]
  · have he := (digitChar_eq_iff a b).mp h2
    have hl : ¬a % 10 < b % 10 := fun hc => h1 ((digitChar_lt_iff a b).mpr hc)
    constructor
    · intro hr; right; exact ⟨he, hr⟩
    · rintro (hc | ⟨_, hr⟩)
      · exact absurd hc hl
      · exact hr
  · have hl : ¬a % 10 < b % 10 := fun hc => h1 ((digitChar_lt_iff a b).mpr hc)
    have hne : a % 10 ≠ b % 10 := fun hc => h2 ((digitChar_eq_iff a b).mpr hc)
    simp [hl, hne]

theorem listLt_step_self (c : Char) (r : Bool) :
    (if c < c then true else if c = c then r else false) = r := by
  rw [if_neg (lt_irrefl c), if_pos rfl]

theorem listLt_last (a b : ℕ) :
    ((if digitChar a < digitChar b then true
      else if digitChar a = digitChar b then false else false) = true)
      ↔ a % 10 < b % 10 := by
  rw [listLt_step]
  simp

theorem strLt_fmtDate_iff (t u : Date) (ht : t.validD) (hu : u.validD) :
    strLt (fmtDate t) (fmtDate u) = true ↔ dateLt t u := by
  obtain ⟨y, m, d⟩ := t
  obtain ⟨y2, m2, d2⟩ := u
  obtain ⟨hy1, hy9, hm1, hm12, hd1, hdm⟩ := ht
  obtain ⟨hy1b, hy9b, hm1b, hm12b, hd1b, hdmb⟩ := hu
  simp only at hy1 hy9 hm1 hm12 hd1 hdm hy1b hy9b hm1b hm12b hd1b hdmb
  have hd31 : d ≤ 31 := le_trans hdm (daysInMonth_le31 y m)
  have hd31b : d2 ≤ 31 := le_trans hdmb (daysInMonth_le31 y2 m2)
  clear hdm hdmb
  show listLt
      [digitChar (y / 1000), digitChar (y / 100), digitChar (y / 10), digitChar y,
        Char.ofNat 45, digitChar (m / 10), digitChar m, Char.ofNat 45,
        digitChar (d / 10), digitChar d]
      [digitChar (y2 / 1000), digitChar (y2 / 100), digitChar (y2 / 10), digitChar y2,
        Char.ofNat 45, digitChar (m2 / 10), digitChar m2, Char.ofNat 45,
        digitChar (d2 / 10), digitChar d2] = true ↔ dateLt ⟨y, m, d⟩ ⟨y2, m2, d2⟩
  rw [listLt_cons, listLt_step, listLt_cons, listLt_step, listLt_cons, listLt_step,
    listLt_cons, listLt_step, listLt_cons, listLt_step_self, listLt_cons, listLt_step,
    listLt_cons, listLt_step, listLt_cons, listLt_step_self, listLt_cons, listLt_step,
    listLt_cons, listLt_nil, listLt_last]
  have e1 : y / 1000 % 10 = y / 1000 := by omega
  have e2 : y2 / 1000 % 10 = y2 / 1000 := by omega
  rw [e1, e2]
  unfold dateLt
  dsimp only
  omega

theorem fmtDate_inj (t u : Date) (ht : t.validD) (hu : u.validD)
    (h : fmtDate t = fmtDate u) : t = u := by
  by_contra hne
  have htr : dateLt t u ∨ dateLt u t := by
    obtain ⟨y, m, d⟩ := t
    obtain ⟨y2, m2, d2⟩ := u
    simp only [Date.mk.injEq] at hne
    unfold dateLt
    dsimp only
    omega
  rcases htr with h1 | h1
  · have hlt := (strLt_fmtDate_iff t u ht hu).mpr h1
    rw [h, strLt_irrefl] at hlt
    cases hlt
  · have hlt := (strLt_fmtDate_iff u t hu ht).mpr h1
    rw [h, strLt_irrefl] at hlt
    cases hlt

theorem listLt_trans : ∀ (a b c : List Char),
    listLt a b = true → listLt b c = true → listLt a c = true := by
  intro a
  induction a with
  | nil =>
    intro b c hab hbc
    cases c with
    | nil => rw [listLt_nil] at hbc; cases hbc
    | cons z zs => rfl
  | cons x xs ih =>
    intro b c hab hbc
    cases b with
    | nil => rw [listLt_nil] at hab; cases hab
    | cons y ys =>
      cases c with
      | nil => rw [listLt_nil] at hbc; cases hbc
      | cons z zs =>
        rw [listLt_cons] at hab hbc ⊢
        by_cases h1 : x < y
        · by_cases h2 : y < z
          · rw [if_pos (lt_trans h1 h2)]
          · by_cases h3 : y = z
            · subst h3; rw [if_pos h1]
            · rw [if_neg h2, if_neg h3] at hbc; cases hbc
        · by_cases h1e : x = y
          · subst h1e
            rw [if_neg h1, if_pos rfl] at hab
            by_cases h2 : x < z
            · rw [if_pos h2]
            · by_cases h3 : x = z
              · subst h3
                rw [if_neg h2, if_pos rfl] at hbc ⊢
                exact ih ys zs hab hbc
              · rw [if_neg h2, if_neg h3] at hbc; cases hbc
          · rw [if_neg h1, if_neg h1e] at hab; cases hab

theorem listLt_total : ∀ (a b : List Char),
    listLt a b = true ∨ a = b ∨ listLt b a = true := by
  intro a
  induction a with
  | nil =>
    intro b
    cases b with
    | nil => right; left; rfl
    | cons y ys => left; rfl
  | cons x xs ih =>
    intro b
    cases b with
    | nil => right; right; rfl
    | cons y ys =>
      rcases lt_trichotomy x y with h | h | h
      · left; rw [listLt_cons, if_pos h]
      · subst h
        rcases ih ys with h2 | h2 | h2
        · left; rw [listLt_cons, if_neg (lt_irrefl x), if_pos rfl]; exact h2
        · right; left; rw [h2]
        · right; right; rw [listLt_cons, if_neg (lt_irrefl x), if_pos rfl]; exact h2
      · right; right; rw [listLt_cons, if_pos h]

instance : IsTotal (String × List Activity) groupLe := ⟨by
  intro a b
  rcases listLt_total a.1.data b.1.data with h | h | h
  · left; left; exact h
  · left; right; exact String.ext h
  · right; left; exact h⟩

instance : IsTrans (String × List Activity) groupLe := ⟨by
  intro a b c hab hbc
  rcases hab with h1 | h1 <;> rcases hbc with h2 | h2
  · left; exact listLt_trans _ _ _ h1 h2
  · left; rw [← h2]; exact h1
  · left; rw [h1]; exact h2
  · right; rw [h1, h2]⟩

/-! ## Grouping lemmas and C1, C2 -/

theorem weekKeyOf_eq (a : Activity) :
    weekKeyOf a = (activityDate a).map week_key := by
  unfold weekKeyOf activityDate
  cases hs : getStr a "start_date" with
  | none => rfl
  | some s =>
    cases hp : parse_start_date s with
    | none => simp [hp]
    | some ts => simp [hp]

theorem activityDate_valid (a : Activity) (d : Date) (h : activityDate a = some d) :
    d.validD := by
  unfold activityDate at h
  obtain ⟨s, hs, h⟩ := bind_some_inv h
  obtain ⟨ts, hts, h⟩ := bind_some_inv h
  injection h with h
  subst h
  exact parse_start_date_valid s ts hts

theorem addToGroup_join (gs : List (String × List Activity)) (k : String) (a : Activity) :
    ((addToGroup gs k a).map Prod.snd).join.Perm ((gs.map Prod.snd).join ++ [a]) := by
  induction gs with
  | nil => simp [addToGroup]
  | cons g gs ih =>
    unfold addToGroup
    by_cases hk : g.1 = k
    · rw [if_pos hk]
      simp only [List.map_cons, List.join_cons]
      rw [List.append_assoc, List.append_assoc]
      exact List.Perm.append_left g.2 List.perm_append_comm
    · rw [if_neg hk]
      simp only [List.map_cons, List.join_cons]
      rw [List.append_assoc]
      exact List.Perm.append_left g.2 ih

theorem weekly_groups_join : ∀ (acts : List Activity)
    (gs0 gs : List (String × List Activity)), weekly_groups acts gs0 = some gs →
    ((gs.map Prod.snd).join).Perm ((gs0.map Prod.snd).join ++ acts) := by
  intro acts
  induction acts with
  | nil =>
    intro gs0 gs h
    injection h with h
    subst h
    simp
  | cons a rest ih =>
    intro gs0 gs h
    obtain ⟨k, hk, h⟩ := bind_some_inv h
    have hperm := ih (addToGroup gs0 k a) gs h
    have hadd := (addToGroup_join gs0 k a).append_right rest
    have hcomb := hperm.trans hadd
    simpa [List.append_assoc] using hcomb

/-- C1: for every activity list processed by get_activities_summary with
include_weekly true, the week buckets partition the cleaned input: the
multiset union of all bucket contents is a permutation of the cleaned
activity list — every cleaned activity lands in exactly one bucket and none
is dropped or duplicated. -/
theorem C1_buckets_partition (acts : List Activity)
    (h1 : (clean_activities acts).isSome)
    (h2 : (weekly_groups ((clean_activities acts).getD []) []).isSome) :
    ((((weekly_groups ((clean_activities acts).getD []) []).getD []).map Prod.snd).join).Perm
      ((clean_activities acts).getD []) := by
  obtain ⟨cleaned, hc⟩ := Option.isSome_iff_exists.mp h1
  simp only [hc, Option.getD_some] at h2 ⊢
  obtain ⟨gs, hg⟩ := Option.isSome_iff_exists.mp h2
  simp only [hg, Option.getD_some]
  have hj := weekly_groups_join cleaned [] gs hg
  simpa using hj

/-- C1 witness: the two-activity fixture. -/
theorem C1_buckets_partition_witness :
    (clean_activities actsTwo).isSome ∧
    (weekly_groups ((clean_activities actsTwo).getD []) []).isSome ∧
    ((((weekly_groups ((clean_activities actsTwo).getD []) []).getD []).map
        Prod.snd).join).Perm ((clean_activities actsTwo).getD []) :=
  ⟨by decide, by decide, C1_buckets_partition actsTwo (by decide) (by decide)⟩

theorem addToGroup_keys (gs : List (String × List Activity)) (k : String) (a : Activity) :
    (addToGroup gs k a).map Prod.fst
      = if k ∈ gs.map Prod.fst then gs.map Prod.fst else gs.map Prod.fst ++ [k] := by
  induction gs with
  | nil => simp [addToGroup]
  | cons g gs ih =>
    unfold addToGroup
    by_cases hk : g.1 = k
    · rw [if_pos hk]
      simp [hk]
    · rw [if_neg hk]
      simp only [List.map_cons, ih]
      by_cases hmem : k ∈ gs.map Prod.fst
      · rw [if_pos hmem, if_pos (List.mem_cons_of_mem _ hmem)]
      · rw [if_neg hmem, if_neg (by
          intro hc
          rcases List.mem_cons.mp hc with hc1 | hc1
          · exact hk hc1.symm
          · exact hmem hc1)]
        rfl

theorem addToGroup_buckets (a : Activity) (d : Date) (hd : activityDate a = some d)
    (hdv : d.validD) :
    ∀ gs : List (String × List Activity), (∀ p ∈ gs, BucketWF p) →
      ∀ p ∈ addToGroup gs (week_key d) a, BucketWF p := by
  obtain ⟨hwv, hwe, hwm⟩ := weekStart_spec d hdv
  intro gs
  induction gs with
  | nil =>
    intro _ p hp
    rw [addToGroup] at hp
    rcases List.mem_singleton.mp hp with hpe
    subst hpe
    refine ⟨weekStart d, hwv, hwm, rfl, ?_⟩
    intro a2 ha2
    rcases List.mem_singleton.mp ha2 with hae
    subst hae
    exact ⟨d, hd, hdv, rfl⟩
  | cons g gs ih =>
    intro hb p hp
    rw [addToGroup] at hp
    by_cases hk : g.1 = week_key d
    · rw [if_pos hk] at hp
      rcases List.mem_cons.mp hp with hp1 | hp1
      · obtain ⟨w0, hw0v, hw0m, hw0f, hw0a⟩ := hb g (List.mem_cons_self g gs)
        have hw0e : w0 = weekStart d := by
          apply fmtDate_inj w0 (weekStart d) hw0v hwv
          rw [hw0f, hk]
          rfl
        subst hp1
        refine ⟨w0, hw0v, hw0m, hw0f, ?_⟩
        intro a2 ha2
        dsimp only at ha2
        rcases List.mem_append.mp ha2 with ha3 | ha3
        · exact hw0a a2 ha3
        · rcases List.mem_singleton.mp ha3 with hae
          subst hae
          exact ⟨d, hd, hdv, hw0e.symm⟩
      · exact hb p (List.mem_cons_of_mem g hp1)
    · rw [if_neg hk] at hp
      rcases List.mem_cons.mp hp with hp1 | hp1
      · subst hp1
        exact hb p (List.mem_cons_self p gs)
      · exact ih (fun p2 hp2 => hb p2 (List.mem_cons_of_mem g hp2)) p hp1

theorem GroupsWF_nil : GroupsWF [] :=
  ⟨List.nodup_nil, fun p hp => absurd hp (List.not_mem_nil p)⟩

theorem GroupsWF_add (gs : List (String × List Activity)) (h0 : GroupsWF gs)
    (a : Activity) (d : Date) (hd : activityDate a = some d) (hdv : d.validD) :
    GroupsWF (addToGroup gs (week_key d) a) := by
  obtain ⟨hnd, hb⟩ := h0
  refine ⟨?_, addToGroup_buckets a d hd hdv gs hb⟩
  rw [addToGroup_keys]
  by_cases hmem : week_key d ∈ gs.map Prod.fst
  · rw [if_pos hmem]
    exact hnd
  · rw [if_neg hmem]
    refine List.Nodup.append hnd (List.nodup_singleton _) ?_
    intro x hx hx2
    rw [List.mem_singleton] at hx2
    subst hx2
    exact hmem hx

theorem weekly_groups_WF : ∀ (acts : List Activity)
    (gs0 gs : List (String × List Activity)), GroupsWF gs0 →
    weekly_groups acts gs0 = some gs → GroupsWF gs := by
  intro acts
  induction acts with
  | nil =>
    intro gs0 gs h0 h
    injection h with h
    subst h
    exact h0
  | cons a rest ih =>
    intro gs0 gs h0 h
    obtain ⟨k, hk, h⟩ := bind_some_inv h
    rw [weekKeyOf_eq] at hk
    obtain ⟨d, hdd, hkd⟩ := Option.map_eq_some'.mp hk
    subst hkd
    exact ih (addToGroup gs0 (week_key d) a) gs
      (GroupsWF_add gs0 h0 a d hdd (activityDate_valid a d hdd)) h

/-- C2 counterexample: the grouping key is derived from the start_date field
(the UTC timestamp), not from the activity's local start timestamp: an
activity whose start_date is Sunday 2025-06-08 23:30 UTC but whose
start_date_local is Monday 2025-06-09 01:30 is bucketed under the Monday
2025-06-02 week of its UTC date, while the claim's local derivation would
produce the week key 2025-06-09. -/
theorem C2_counterexample :
    weekly_groups [actLocalDiffers] [] = some [("2025-06-02", [actLocalDiffers])] ∧
    (getStr actLocalDiffers "start_date_local").bind
        (fun s => (parse_start_date s).map (fun ts => week_key ts.date))
      = some "2025-06-09" ∧
    ("2025-06-02" : String) ≠ "2025-06-09" :=
  ⟨by decide, by decide, by decide⟩

/-- C2 (amended): for every activity, the week key is derived by parsing the
activity's start_date timestamp (the UTC field, not the local one) and
subtracting weekday() days (Monday = 0), formatted as an ISO date string;
consequently every week key is the ISO string of a valid Monday, and every
activity in that bucket has a parsed start_date whose calendar date lies
within the 7 contiguous days from that Monday through the following Sunday
inclusive — never the following week's Monday. -/
theorem C2_week_key_monday (acts : List Activity)
    (h : (weekly_groups acts []).isSome) :
    ∀ p ∈ (weekly_groups acts []).getD [], ∃ w : Date, w.validD ∧ weekday w = 0 ∧
      fmtDate w = p.1 ∧ ∀ a ∈ p.2, ∃ d : Date, activityDate a = some d ∧
        weekStart d = w ∧ toRataDie w ≤ toRataDie d ∧ toRataDie d ≤ toRataDie w + 6 := by
  obtain ⟨gs, hg⟩ := Option.isSome_iff_exists.mp h
  simp only [hg, Option.getD_some]
  have hwf := weekly_groups_WF acts [] gs GroupsWF_nil hg
  intro p hp
  obtain ⟨w, hwv, hwm, hwfm, hwa⟩ := hwf.2 p hp
  refine ⟨w, hwv, hwm, hwfm, ?_⟩
  intro a ha
  obtain ⟨d2, hd2, hd2v, hws⟩ := hwa a ha
  obtain ⟨hv2, he, hm0⟩ := weekStart_spec d2 hd2v
  rw [hws] at he
  have h7 := weekday_lt7 d2
  exact ⟨d2, hd2, hws, by omega, by omega⟩

/-- C2 witness: the amended statement applied to the two-activity fixture. -/
theorem C2_week_key_monday_witness :
    (weekly_groups actsTwo []).isSome ∧
    ∀ p ∈ (weekly_groups actsTwo []).getD [], ∃ w : Date, w.validD ∧ weekday w = 0 ∧
      fmtDate w = p.1 ∧ ∀ a ∈ p.2, ∃ d : Date, activityDate a = some d ∧
        weekStart d = w ∧ toRataDie w ≤ toRataDie d ∧ toRataDie d ≤ toRataDie w + 6 :=
  ⟨by decide, C2_week_key_monday actsTwo (by decide)⟩

/-! ## Sorting lemmas and C7 -/

theorem weekly_summaries_keys : ∀ (gs : List (String × List Activity))
    (ws : List (String × J)), weekly_summaries gs = some ws →
    ws.map Prod.fst = gs.map Prod.fst := by
  intro gs
  induction gs with
  | nil =>
    intro ws h
    injection h with h
    subst h
    rfl
  | cons g gs ih =>
    intro ws h
    obtain ⟨y, hy, h⟩ := bind_some_inv h
    obtain ⟨ys, hys, h⟩ := bind_some_inv h
    injection h with h
    subst h
    obtain ⟨s, hs, hy2⟩ := Option.map_eq_some'.mp hy
    subst hy2
    simp [ih ys hys]

theorem sorted_strict (gs : List (String × List Activity))
    (hs : List.Sorted groupLe gs) (hnd : (gs.map Prod.fst).Nodup) :
    List.Pairwise (fun p q : String × List Activity => strLt p.1 q.1 = true) gs := by
  have hnd2 : List.Pairwise (fun p q : String × List Activity => p.1 ≠ q.1) gs :=
    List.pairwise_map.mp hnd
  refine (hs.and hnd2).imp ?_
  rintro a b ⟨hle, hne⟩
  rcases hle with h1 | h1
  · exact h1
  · exact absurd h1 hne

theorem keyDateLt_of (p q : String × List Activity) (hp : BucketWF p) (hq : BucketWF q)
    (h : strLt p.1 q.1 = true) : keyDateLt p.1 q.1 := by
  obtain ⟨w1, hv1, _, hf1, _⟩ := hp
  obtain ⟨w2, hv2, _, hf2, _⟩ := hq
  refine ⟨w1, w2, hv1, hv2, hf1, hf2, ?_⟩
  rw [← hf1, ← hf2] at h
  exact (strLt_fmtDate_iff w1 w2 hv1 hv2).mp h

theorem sorted_keys_pairwise (cleaned : List Activity)
    (gs : List (String × List Activity)) (hg : weekly_groups cleaned [] = some gs) :
    List.Pairwise keyDateLt ((sortGroups gs).map Prod.fst) := by
  have hwf := weekly_groups_WF cleaned [] gs GroupsWF_nil hg
  have hperm : (sortGroups gs).Perm gs := List.perm_insertionSort groupLe gs
  have hnd : ((sortGroups gs).map Prod.fst).Nodup :=
    (List.Perm.nodup_iff (hperm.map Prod.fst)).mpr hwf.1
  have hsorted : List.Sorted groupLe (sortGroups gs) :=
    List.sorted_insertionSort groupLe gs
  have hstrict := sorted_strict _ hsorted hnd
  rw [List.pairwise_map]
  refine List.Pairwise.imp_of_mem ?_ hstrict
  intro p q hp hq hpq
  exact keyDateLt_of p q (hwf.2 p (hperm.mem_iff.mp hp)) (hwf.2 q (hperm.mem_iff.mp hq)) hpq

/-- C7: for every activity list accepted by get_activities_summary with
include_weekly true, the weekly portion of the summary lists its week keys in
ascending chronological order of the week start date (pairwise, every earlier
key is the ISO string of a strictly earlier valid date). -/
theorem C7_weekly_ascending (acts : List Activity)
    (h : (get_activities_summary acts true).isSome) :
    List.Pairwise keyDateLt
      (weeklyKeys ((get_activities_summary acts true).getD (J.obj []))) := by
  by_cases hE : acts.isEmpty
  · have he : get_activities_summary acts true = some (J.obj []) := by
      unfold get_activities_summary
      rw [if_pos hE]
    rw [he]
    simp only [Option.getD_some]
    exact List.Pairwise.nil
  · obtain ⟨j, hj⟩ := Option.isSome_iff_exists.mp h
    rw [hj]
    simp only [Option.getD_some]
    unfold get_activities_summary at hj
    rw [if_neg hE] at hj
    obtain ⟨cleaned, hc, hj⟩ := bind_some_inv hj
    obtain ⟨overall, ho, hj⟩ := bind_some_inv hj
    rw [if_pos rfl] at hj
    obtain ⟨gs, hg, hj⟩ := bind_some_inv hj
    obtain ⟨w, hw, hj⟩ := bind_some_inv hj
    injection hj with hj
    subst hj
    have hkeys : weeklyKeys (J.obj [("overall", overall), ("weekly", J.obj w)])
        = w.map Prod.fst := rfl
    rw [hkeys, weekly_summaries_keys _ _ hw]
    exact sorted_keys_pairwise cleaned gs hg

/-- C7 witness: the two-activity fixture produces the ascending keys
2025-06-02 and 2025-06-09. -/
theorem C7_weekly_ascending_witness :
    (get_activities_summary actsTwo true).isSome ∧
    List.Pairwise keyDateLt
      (weeklyKeys ((get_activities_summary actsTwo true).getD (J.obj []))) :=
  ⟨by decide, C7_weekly_ascending actsTwo (by decide)⟩

/-! ## C6: windowing (modelled from the spec) -/

/-- C6 (spec-modelled): with windowWeeks = N, the weekly mapping of the
windowed summary contains exactly the N most recent distinct week keys
present in the data: its keys are the final segment of the full ascending key
list, there are min N (number of distinct weeks) of them, they are in
ascending chronological order, and every discarded (older) key is
chronologically before every kept key. -/
theorem C6_windowing (acts : List Activity) (N : ℕ)
    (h1 : (summarize_windowed acts (some N)).isSome)
    (h2 : (summarize_windowed acts none).isSome) :
    ((summarize_windowed acts (some N)).getD []).map Prod.fst
        = (((summarize_windowed acts none).getD []).map Prod.fst).drop
            (((summarize_windowed acts none).getD []).length - N) ∧
    ((summarize_windowed acts (some N)).getD []).length
        = min N ((summarize_windowed acts none).getD []).length ∧
    List.Pairwise keyDateLt
      (((summarize_windowed acts (some N)).getD []).map Prod.fst) ∧
    (∀ k ∈ ((((summarize_windowed acts none).getD []).map Prod.fst).take
        (((summarize_windowed acts none).getD []).length - N)),
      ∀ k2 ∈ ((summarize_windowed acts (some N)).getD []).map Prod.fst,
        keyDateLt k k2) := by
  obtain ⟨w, hw⟩ := Option.isSome_iff_exists.mp h1
  obtain ⟨wAll, hwA⟩ := Option.isSome_iff_exists.mp h2
  simp only [hw, hwA, Option.getD_some]
  unfold summarize_windowed at hw hwA
  obtain ⟨cleaned, hc, hw⟩ := bind_some_inv hw
  obtain ⟨cleaned2, hc2, hwA⟩ := bind_some_inv hwA
  rw [hc] at hc2
  injection hc2 with hc2
  subst hc2
  obtain ⟨gs, hg, hw⟩ := bind_some_inv hw
  obtain ⟨gs2, hg2, hwA⟩ := bind_some_inv hwA
  rw [hg] at hg2
  injection hg2 with hg2
  subst hg2
  have hkw := weekly_summaries_keys _ _ hw
  have hkA := weekly_summaries_keys _ _ hwA
  have hkw2 : w.map Prod.fst
      = ((sortGroups gs).map Prod.fst).drop ((sortGroups gs).length - N) := by
    rw [hkw, List.map_drop]
  have hlenA : wAll.length = (sortGroups gs).length := by
    have hh := congrArg List.length hkA
    simpa using hh
  have hpair := sorted_keys_pairwise cleaned gs hg
  refine ⟨?_, ?_, ?_, ?_⟩
  · rw [hkw2, hkA, hlenA]
  · have hh := congrArg List.length hkw2
    simp only [List.length_map, List.length_drop] at hh
    rw [hh, hlenA]
    omega
  · rw [hkw2]
    exact hpair.sublist (List.drop_sublist _ _)
  · intro k hk k2 hk2
    rw [hkA, hlenA] at hk
    rw [hkw2] at hk2
    have hsplit := hpair
    rw [← List.take_append_drop ((sortGroups gs).length - N)
      ((sortGroups gs).map Prod.fst)] at hsplit
    exact (List.pairwise_append.mp hsplit).2.2 k hk k2 hk2

/-- C6 witness: ten activities in ten distinct weeks with windowWeeks = 4
keep exactly the four most recent week keys, in ascending order. -/
theorem C6_windowing_witness :
    (summarize_windowed actsTen (some 4)).isSome ∧
    (summarize_windowed actsTen none).isSome ∧
    ((summarize_windowed actsTen none).getD []).length = 10 ∧
    ((summarize_windowed actsTen (some 4)).getD []).map Prod.fst
      = ["2025-05-19", "2025-05-26", "2025-06-02", "2025-06-09"] ∧
    List.Pairwise keyDateLt
      (((summarize_windowed actsTen (some 4)).getD []).map Prod.fst) :=
  ⟨by decide, by decide, by decide, by decide,
    (C6_windowing actsTen 4 (by decide) (by decide)).2.2.1⟩

/-! ## C10: statistics with missing fields -/

theorem optNum_exists {o : Option Val} (h : optNum o = true) {v : Val}
    (he : o = some v) : ∃ q, v = Val.num q := by
  subst he
  exact isNum_exists h

theorem sumField_spec (k : String) : ∀ (acts : List Activity) (acc : ℚ),
    (∀ a ∈ acts, ∀ v, a.lookup k = some v → ∃ q, v = Val.num q) →
    sumField k acts acc = some (acc + presentSum k acts) := by
  intro acts
  induction acts with
  | nil =>
    intro acc _
    show some acc = some (acc + presentSum k [])
    unfold presentSum
    simp
  | cons a rest ih =>
    intro acc h
    have hunfold : sumField k (a :: rest) acc
        = (match a.lookup k with
           | none => sumField k rest (acc + 0)
           | some (Val.num q) => sumField k rest (acc + q)
           | some _ => none) := rfl
    cases hl : a.lookup k with
    | none =>
      rw [hunfold, hl]
      show sumField k rest (acc + 0) = _
      rw [ih (acc + 0) (fun a2 h2 => h a2 (List.mem_cons_of_mem _ h2))]
      congr 1
      unfold presentSum
      simp only [List.filterMap_cons, hl]
      ring
    | some v =>
      obtain ⟨q, hq⟩ := h a (List.mem_cons_self a rest) v hl
      subst hq
      rw [hunfold, hl]
      show sumField k rest (acc + q) = _
      rw [ih (acc + q) (fun a2 h2 => h a2 (List.mem_cons_of_mem _ h2))]
      congr 1
      unfold presentSum
      simp only [List.filterMap_cons, hl, List.sum_cons]
      ring

theorem bump_lookup (h : List (Val × ℕ)) (v2 w : Val) :
    ((bump h v2).lookup w).getD 0
      = if w = v2 then (h.lookup w).getD 0 + 1 else (h.lookup w).getD 0 := by
  induction h with
  | nil =>
    by_cases hw : w = v2
    · rw [hw, if_pos rfl]
      show ((([(v2, 1)] : List (Val × ℕ)).lookup v2).getD 0) = _
      rw [lookup_cons_eq]
      rfl
    · rw [if_neg hw]
      show ((([(v2, 1)] : List (Val × ℕ)).lookup w).getD 0) = _
      rw [lookup_cons_ne w v2 1 [] hw]
  | cons e es ih =>
    obtain ⟨e1, e2⟩ := e
    unfold bump
    dsimp only
    by_cases he : e1 = v2
    · rw [if_pos he]
      by_cases hw : w = e1
      · rw [hw, lookup_cons_eq, lookup_cons_eq, if_pos he]
        rfl
      · rw [lookup_cons_ne w e1 (e2 + 1) es hw, lookup_cons_ne w e1 e2 es hw,
          if_neg (fun hc => hw (hc.trans he.symm))]
    · rw [if_neg he]
      by_cases hw : w = e1
      · rw [hw, lookup_cons_eq, lookup_cons_eq, if_neg (fun hc : e1 = v2 => he hc)]
      · rw [lookup_cons_ne w e1 e2 (bump es v2) hw, lookup_cons_ne w e1 e2 es hw, ih]

theorem histo_lookup : ∀ (acts : List Activity) (h : List (Val × ℕ)) (v : Val),
    ((histo acts h).lookup v).getD 0
      = (h.lookup v).getD 0 + (acts.filter (fun a => typeVal a == v)).length := by
  intro acts
  induction acts with
  | nil =>
    intro h v
    simp [histo]
  | cons a rest ih =>
    intro h v
    show ((histo rest (bump h (typeVal a))).lookup v).getD 0 = _
    rw [ih, bump_lookup]
    by_cases hv : v = typeVal a
    · rw [if_pos hv]
      have hb : (typeVal a == v) = true := by simp [hv]
      simp only [List.filter_cons, hb]
      simp
      omega
    · rw [if_neg hv]
      have hb : (typeVal a == v) = false := by
        simp only [beq_eq_false_iff_ne, ne_eq]
        exact fun hc => hv hc.symm
      simp only [List.filter_cons, hb]
      simp

/-- C10: the computed statistics treat an activity lacking distance,
moving_time or elapsed_time as contributing 0 to the corresponding total
rather than failing or being excluded: total_activities counts every
activity, each total equals the sum over only the activities that carry that
field, and an activity lacking a type field is counted under the Unknown
histogram bucket. -/
theorem C10_missing_fields (acts : List Activity) (hne : acts ≠ [])
    (hnum : ∀ a ∈ acts, ∀ k ∈ (["distance", "moving_time", "elapsed_time"] : List String),
      ∀ v, a.lookup k = some v → ∃ q, v = Val.num q) :
    ∃ H : List (Val × ℕ),
      calculate_activity_stats acts
        = some (J.obj
            [("total_activities", J.num acts.length),
             ("total_distance_miles", J.num (presentSum "distance" acts)),
             ("total_moving_time_hours", J.num (presentSum "moving_time" acts / 3600)),
             ("total_elapsed_time_hours", J.num (presentSum "elapsed_time" acts / 3600)),
             ("activity_types", J.vmap H)]) ∧
      (∀ v : Val, (H.lookup v).getD 0
        = (acts.filter (fun a => typeVal a == v)).length) ∧
      (∀ a ∈ acts, a.lookup "type" = none → typeVal a = Val.str "Unknown") := by
  refine ⟨histo acts [], ?_, ?_, ?_⟩
  · unfold calculate_activity_stats
    rw [if_neg (fun hc => hne (List.isEmpty_iff.mp hc))]
    rw [sumField_spec "distance" acts 0
      (fun a ha v hv => hnum a ha "distance" (by simp) v hv)]
    simp only [Option.bind_eq_bind, Option.some_bind]
    rw [sumField_spec "moving_time" acts 0
      (fun a ha v hv => hnum a ha "moving_time" (by simp) v hv)]
    simp only [Option.bind_eq_bind, Option.some_bind]
    rw [sumField_spec "elapsed_time" acts 0
      (fun a ha v hv => hnum a ha "elapsed_time" (by simp) v hv)]
    simp only [Option.bind_eq_bind, Option.some_bind]
    rw [zero_add, zero_add, zero_add]
    rfl
  · intro v
    rw [histo_lookup]
    simp [List.lookup]
  · intro a _ hnone
    unfold typeVal
    rw [hnone]
    rfl

/-- C10 witness: three activities, the second lacking distance, moving_time
and type, the third lacking moving_time. -/
theorem C10_missing_fields_witness :
    ∃ H : List (Val × ℕ),
      calculate_activity_stats actsStats
        = some (J.obj
            [("total_activities", J.num actsStats.length),
             ("total_distance_miles", J.num (presentSum "distance" actsStats)),
             ("total_moving_time_hours", J.num (presentSum "moving_time" actsStats / 3600)),
             ("total_elapsed_time_hours", J.num (presentSum "elapsed_time" actsStats / 3600)),
             ("activity_types", J.vmap H)]) ∧
      (∀ v : Val, (H.lookup v).getD 0
        = (actsStats.filter (fun a => typeVal a == v)).length) ∧
      (∀ a ∈ actsStats, a.lookup "type" = none → typeVal a = Val.str "Unknown") :=
  C10_missing_fields actsStats (by decide) (fun a ha k hk v hv =>
    optNum_exists
      ((by decide : ∀ a ∈ actsStats,
          ∀ k ∈ (["distance", "moving_time", "elapsed_time"] : List String),
          optNum (a.lookup k) = true) a ha k hk) hv)

end Strava
